import Mathlib

/-!
Shallow embedding of the `k8s-image-type-discovery` discovery pipeline.

The repository contains two near-duplicate program variants:
* `src/discovery.go` (four gauges, FIPS detection, base-type tags
  "Debian"/"Alpine"/"RHEL"/"Chainguard"/"Other"/"Unknown");
* `unnamed/part_000` (three gauges, no FIPS logic, lowercase tags
  "debian"/"ubuntu"/"alpine"/"centos"/"rhel"/"fedora"/"other"/"unknown").

Go strings are modelled as `List Char`; Go's `strings.ToLower` is modelled
on the ASCII letters (the only characters any of the parsing logic
distinguishes).  Gauge vectors and Go maps are modelled as association
lists; gauge values are the natural-number counts the program stores in
them.  Remote execution is modelled by an oracle supplying each
container's exec outcome.
-/

namespace Discovery

/-- ASCII lower-casing of one character (Go `strings.ToLower` on ASCII). -/
def lowerChar (c : Char) : Char :=
  match c with
  | 'A' => 'a' | 'B' => 'b' | 'C' => 'c' | 'D' => 'd' | 'E' => 'e'
  | 'F' => 'f' | 'G' => 'g' | 'H' => 'h' | 'I' => 'i' | 'J' => 'j'
  | 'K' => 'k' | 'L' => 'l' | 'M' => 'm' | 'N' => 'n' | 'O' => 'o'
  | 'P' => 'p' | 'Q' => 'q' | 'R' => 'r' | 'S' => 's' | 'T' => 't'
  | 'U' => 'u' | 'V' => 'v' | 'W' => 'w' | 'X' => 'x' | 'Y' => 'y'
  | 'Z' => 'z'
  | c => c

/-- Go `strings.ToLower` on a whole string. -/
def lowerStr (s : List Char) : List Char := s.map lowerChar

/-- Go `strings.Split(s, "\n")`: split on newline, keeping empty pieces;
the empty string yields one empty piece. -/
def splitLines : List Char → List (List Char)
  | [] => [[]]
  | c :: rest =>
    if c = '\n' then [] :: splitLines rest
    else
      match splitLines rest with
      | [] => [[c]]
      | l :: ls => (c :: l) :: ls

/-- Go `strings.TrimPrefix(s, pre)`: drop `pre` when it is a prefix,
otherwise return `s` unchanged. -/
def trimPre (s pre : List Char) : List Char :=
  if pre.isPrefixOf s then s.drop pre.length else s

/-- The cutset predicate of Go `strings.Trim(value, "\"")`; `'\x22'` is
the double-quote character. -/
def isQuote (c : Char) : Bool := c = '\x22'

/-- Remove leading quote characters. -/
def trimLeadQ (s : List Char) : List Char := s.dropWhile isQuote

/-- Remove trailing quote characters. -/
def trimTrailQ (s : List Char) : List Char := (s.reverse.dropWhile isQuote).reverse

/-- Go `strings.Trim(value, "\"")`: strip quote characters from both ends. -/
def trimQuotes (s : List Char) : List Char := trimTrailQ (trimLeadQ s)

/-- Go `strings.Contains(hay, needle)`: substring test. -/
def containsSub (needle hay : List Char) : Bool :=
  needle.isPrefixOf hay ||
    match hay with
    | [] => false
    | _ :: t => containsSub needle t

/-- The `switch` over the identity value in `parseOsRelease`
(`src/discovery.go` lines 194-205): ordered substring rules, first match
wins, everything else is "Other". -/
def classifyValue (value : List Char) : String :=
  if containsSub "debian".data value then "Debian"
  else if containsSub "alpine".data value then "Alpine"
  else if containsSub "centos".data value || containsSub "rhel".data value ||
      containsSub "ubi".data value then "RHEL"
  else if containsSub "wolfi".data value then "Chainguard"
  else "Other"

/-- The identity-line test of `parseOsRelease` (`src/discovery.go` line 189):
the lowered line starts with `id=` or `name=`. -/
def idLine (line : List Char) : Bool :=
  "id=".data.isPrefixOf (lowerStr line) || "name=".data.isPrefixOf (lowerStr line)

/-- The per-line result of `parseOsRelease` (`src/discovery.go` lines
190-205): strip the `id=` then the `name=` prefix from the lowered line,
strip surrounding quotes, and classify. -/
def lineTag (line : List Char) : String :=
  let lowerLine := lowerStr line
  classifyValue (trimQuotes (trimPre (trimPre lowerLine "id=".data) "name=".data))

/-- The loop of `parseOsRelease` (`src/discovery.go` lines 186-208): scan
lines in order, return at the first identity line, else "Unknown". -/
def parseLines : List (List Char) → String
  | [] => "Unknown"
  | line :: rest => if idLine line then lineTag line else parseLines rest

/-- `parseOsRelease` of `src/discovery.go` (lines 185-209). -/
def parseOsRelease (content : String) : String :=
  parseLines (splitLines content.data)

/-- The identity-line test of the `unnamed/part_000` variant (line 175):
only `id=` counts. -/
def idLineV0 (line : List Char) : Bool :=
  "id=".data.isPrefixOf (lowerStr line)

/-- The per-line result of the `unnamed/part_000` variant (lines 176-188):
`switch` on the exact identity value; the `"centos", "rhel", "fedora"`
case returns the matched value itself, written out per branch here. -/
def lineTagV0 (line : List Char) : String :=
  let id := trimQuotes (trimPre (lowerStr line) "id=".data)
  if id = "debian".data then "debian"
  else if id = "ubuntu".data then "ubuntu"
  else if id = "alpine".data then "alpine"
  else if id = "centos".data then "centos"
  else if id = "rhel".data then "rhel"
  else if id = "fedora".data then "fedora"
  else "other"

/-- The loop of the `unnamed/part_000` variant's `parseOsRelease`
(lines 172-192). -/
def parseLinesV0 : List (List Char) → String
  | [] => "unknown"
  | line :: rest => if idLineV0 line then lineTagV0 line else parseLinesV0 rest

/-- `parseOsRelease` of the `unnamed/part_000` variant (lines 172-192). -/
def parseOsReleaseV0 (content : String) : String :=
  parseLinesV0 (splitLines content.data)

/-- `fipsIndicators` of `isFipsFromImageName` (`src/discovery.go`
lines 226-231). -/
def fipsIndicators : List (List Char) :=
  ["fips".data, "ubi8-fips".data, "debian:fips".data, "chainguard:fips".data]

/-- `isFipsFromImageName` (`src/discovery.go` lines 224-238). -/
def isFipsFromImageName (image : List Char) : Bool :=
  fipsIndicators.any (fun indicator => containsSub indicator (lowerStr image))

/-- The content-marker test of `isFipsCompliant` (`src/discovery.go`
line 215). -/
def hasFipsMarker (osRelease : List Char) : Bool :=
  containsSub "fips_mode=yes".data (lowerStr osRelease) ||
    containsSub "fips=1".data (lowerStr osRelease)

/-- `isFipsCompliant` (`src/discovery.go` lines 212-221). -/
def isFipsCompliant (osRelease image : List Char) : Bool :=
  if hasFipsMarker osRelease then true
  else isFipsFromImageName image

/-- Outcome of the remote `cat /etc/os-release` execution attempted by
`getContainerDetails`: the SPDY executor may fail to be created, the
stream may finish with an error, or standard output is captured. -/
inductive ExecOutcome where
  | executorError
  | streamError
  | output (stdout : List Char)
deriving DecidableEq

/-- `getContainerDetails` (`src/discovery.go` lines 142-182), as a function
of the exec outcome and the container's image reference.  On executor
creation failure (line 162) it returns `("Unknown", false)`; on stream
failure (line 174) it falls back to the image-name heuristic; on success
it parses the captured output. -/
def getContainerDetails (outcome : ExecOutcome) (image : List Char) : String × Bool :=
  match outcome with
  | ExecOutcome.executorError => ("Unknown", false)
  | ExecOutcome.streamError => ("Unknown", isFipsFromImageName image)
  | ExecOutcome.output stdout =>
      (parseLines (splitLines stdout), isFipsCompliant stdout image)

/-- A container spec: name and image reference
(`pod.Spec.Containers` entries). -/
structure Container where
  name : List Char
  image : List Char
deriving DecidableEq

/-- A pod: namespace, name and its containers. -/
structure Pod where
  ns : List Char
  name : List Char
  containers : List Container
deriving DecidableEq

/-- Go `map[string]float64` insert-or-increment (`m[k]++`), as an
association list; values are the natural-number counts. -/
def bump {α : Type} [DecidableEq α] : List (α × Nat) → α → List (α × Nat)
  | [], k => [(k, 1)]
  | (k', v) :: rest, k =>
    if k' = k then (k', v + 1) :: rest else (k', v) :: bump rest k

/-- Prometheus `WithLabelValues(k).Set(v)` on a gauge vector: overwrite the
existing entry for `k` or create it. -/
def setLabel {α : Type} [DecidableEq α] : List (α × Nat) → α → Nat → List (α × Nat)
  | [], k, v => [(k, v)]
  | (k', v') :: rest, k, v =>
    if k' = k then (k', v) :: rest else (k', v') :: setLabel rest k v

/-- The value published for a label combination, if the combination is
currently exported. -/
def lookupVal {α : Type} [DecidableEq α] : List (α × Nat) → α → Option Nat
  | [], _ => none
  | (k', v) :: rest, k => if k' = k then some v else lookupVal rest k

/-- The per-cycle aggregate built by `updateMetrics`
(`src/discovery.go` lines 104-124): the three count maps and the
FIPS-compliant container count. -/
structure Snapshot where
  nsMap : List (List Char × Nat)
  imageMap : List (List Char × Nat)
  baseTypeMap : List (String × Nat)
  fipsCount : Nat
deriving DecidableEq

/-- The empty aggregate at the start of a cycle. -/
def emptySnapshot : Snapshot := ⟨[], [], [], 0⟩

/-- One iteration of the inner container loop of `updateMetrics`
(`src/discovery.go` lines 113-123): bump the image count, classify via
`getContainerDetails`, bump the base-type count, and count compliance.
`inspect` is the oracle giving each container's exec outcome. -/
def aggContainer (inspect : Pod → Container → ExecOutcome) (pod : Pod)
    (acc : Snapshot) (c : Container) : Snapshot :=
  let acc1 : Snapshot := { acc with imageMap := bump acc.imageMap c.image }
  let d := getContainerDetails (inspect pod c) c.image
  let acc2 : Snapshot := { acc1 with baseTypeMap := bump acc1.baseTypeMap d.1 }
  if d.2 then { acc2 with fipsCount := acc2.fipsCount + 1 } else acc2

/-- One iteration of the outer pod loop of `updateMetrics`
(`src/discovery.go` lines 109-124): bump the namespace count once per pod,
then fold over the pod's containers. -/
def aggPod (inspect : Pod → Container → ExecOutcome) (acc : Snapshot)
    (pod : Pod) : Snapshot :=
  pod.containers.foldl (aggContainer inspect pod)
    { acc with nsMap := bump acc.nsMap pod.ns }

/-- The whole aggregation phase of a cycle. -/
def aggregate (inspect : Pod → Container → ExecOutcome) (pods : List Pod) : Snapshot :=
  pods.foldl (aggPod inspect) emptySnapshot

/-- The externally visible state of the four registered metrics:
three gauge vectors (exported label combinations with their values) and
the scalar `containers_fips_compliant` gauge. -/
structure GaugeState where
  podsPerNamespace : List (List Char × Nat)
  containerImageCount : List (List Char × Nat)
  containerBaseImageType : List (String × Nat)
  containersFipsCompliant : Nat
deriving DecidableEq

/-- Publication of one count map into a gauge vector that was just
`Reset()`: set each (label, value) pair into the empty vector
(`src/discovery.go` lines 127-135). -/
def publishVec {α : Type} [DecidableEq α] (entries : List (α × Nat)) : List (α × Nat) :=
  entries.foldl (fun g kv => setLabel g kv.1 kv.2) []

/-- The gauge state after a successful cycle publishing `snap`: the code
resets all four metrics (lines 98-101) before aggregation and then sets
every aggregated pair (lines 127-136), so the final state is determined
by the snapshot alone. -/
def publish (snap : Snapshot) : GaugeState :=
  { podsPerNamespace := publishVec snap.nsMap
    containerImageCount := publishVec snap.imageMap
    containerBaseImageType := publishVec snap.baseTypeMap
    containersFipsCompliant := snap.fipsCount }

/-- `updateMetrics` (`src/discovery.go` lines 89-139) as a state
transformer on the published gauges.  `listResult` is the outcome of the
pod `List` call: `none` models a listing error, in which case the function
returns before any `Reset` or `Set` (lines 92-95); otherwise the cycle
resets, aggregates and publishes. -/
def updateMetrics (inspect : Pod → Container → ExecOutcome)
    (listResult : Option (List Pod)) (g : GaugeState) : GaugeState :=
  match listResult with
  | none => g
  | some pods => publish (aggregate inspect pods)

/-- Sum of the counts in a count map. -/
def sumVals {α : Type} (m : List (α × Nat)) : Nat :=
  (m.map Prod.snd).sum

/-- Total number of containers across a pod listing. -/
def totalContainers (pods : List Pod) : Nat :=
  (pods.map (fun p => p.containers.length)).sum

/-- The exported label combinations of a gauge vector or count map. -/
def keysOf {α : Type} (m : List (α × Nat)) : List α := m.map Prod.fst

/-- Modelled from the spec (claim C4's wording, §4.3 steps 2-3): scan for
the first line whose key before the first `=` case-insensitively matches
`id` or `name`; the key/value split at the first `=`. -/
def splitAtEq : List Char → Option (List Char × List Char)
  | [] => none
  | c :: rest =>
    if c = '=' then some ([], rest)
    else
      match splitAtEq rest with
      | none => none
      | some kv => some (c :: kv.1, kv.2)

/-- Modelled from the spec: a line whose key before `=` case-insensitively
matches an identity field (`id` or `name`). -/
def specIdentKey (line : List Char) : Bool :=
  match splitAtEq (lowerStr line) with
  | some kv => kv.1 = "id".data || kv.1 = "name".data
  | none => false

/-- Modelled from the spec: strip surrounding double quotes from the
selected line's value and map it through the ordered substring rules. -/
def specLineTag (line : List Char) : String :=
  match splitAtEq (lowerStr line) with
  | some kv => classifyValue (trimQuotes kv.2)
  | none => "Unknown"

/-- Modelled from the spec (claim C4): the base-type classifier described
by the specification, to be compared with `parseOsRelease`. -/
def parseOsReleaseSpec (content : String) : String :=
  match (splitLines content.data).find? specIdentKey with
  | some line => specLineTag line
  | none => "Unknown"

/-- The substring tokens of the ordered classification rules. -/
def classTokens : List (List Char) :=
  ["debian".data, "alpine".data, "centos".data, "rhel".data,
   "ubi".data, "wolfi".data]

/-! ### String-level helper lemmas -/

lemma lowerChar_eq_newline_iff (c : Char) : lowerChar c = '\n' ↔ c = '\n' := by
  unfold lowerChar
  split <;> first | decide | exact Iff.rfl

lemma containsSub_cons (n : List Char) (a : Char) (t : List Char) :
    containsSub n (a :: t) = (n.isPrefixOf (a :: t) || containsSub n t) := rfl

lemma containsSub_iff (n h : List Char) : containsSub n h = true ↔ n <:+: h := by
  induction h with
  | nil => simp [containsSub, List.isPrefixOf_iff_prefix]
  | cons a t ih =>
    rw [containsSub_cons, List.infix_cons_iff]
    simp [List.isPrefixOf_iff_prefix, ih]

lemma splitLines_ne_nil (s : List Char) : splitLines s ≠ [] := by
  induction s with
  | nil => simp [splitLines]
  | cons c rest ih =>
    simp only [splitLines]
    split
    · simp
    · split <;> simp

lemma splitLines_lower (s : List Char) :
    splitLines (lowerStr s) = (splitLines s).map lowerStr := by
  induction s with
  | nil => simp [splitLines, lowerStr]
  | cons c rest ih =>
    show splitLines (lowerChar c :: lowerStr rest) = _
    by_cases hc : c = '\n'
    · have hlc : lowerChar c = '\n' := (lowerChar_eq_newline_iff c).mpr hc
      simp only [splitLines, if_pos hlc, if_pos hc, ih, List.map_cons]
      rfl
    · have hlc : lowerChar c ≠ '\n' := fun h => hc ((lowerChar_eq_newline_iff c).mp h)
      simp only [splitLines, if_neg hlc, if_neg hc, ih]
      cases h : splitLines rest with
      | nil => exact absurd h (splitLines_ne_nil rest)
      | cons l ls => simp [lowerStr]

lemma splitAtEq_some (s k v : List Char) (h : splitAtEq s = some (k, v)) :
    s = k ++ '=' :: v ∧ '=' ∉ k := by
  induction s generalizing k v with
  | nil => simp [splitAtEq] at h
  | cons c rest ih =>
    by_cases hc : c = '='
    · subst hc
      simp [splitAtEq] at h
      obtain ⟨hk, hv⟩ := h
      subst hk; subst hv
      simp
    · simp only [splitAtEq, if_neg hc] at h
      cases hsp : splitAtEq rest with
      | none => rw [hsp] at h; simp at h
      | some kv =>
        rw [hsp] at h
        simp at h
        obtain ⟨hk, hv⟩ := h
        obtain ⟨h1, h2⟩ := ih kv.1 kv.2 (by rw [hsp])
        subst hv
        refine ⟨by rw [← hk]; simp [h1], ?_⟩
        rw [← hk]
        simp only [List.mem_cons, not_or]
        exact ⟨fun hcc => hc hcc.symm, h2⟩

lemma splitAtEq_append (k v : List Char) (hk : '=' ∉ k) :
    splitAtEq (k ++ '=' :: v) = some (k, v) := by
  induction k with
  | nil => simp [splitAtEq]
  | cons c rest ih =>
    have hc : c ≠ '=' := fun h => hk (h ▸ List.mem_cons_self c rest)
    have hrest : '=' ∉ rest := fun h => hk (List.mem_cons_of_mem c h)
    simp [splitAtEq, hc, ih hrest]

lemma trimPre_append (p s : List Char) : trimPre (p ++ s) p = s := by
  simp [trimPre, List.isPrefixOf_iff_prefix, List.prefix_append, List.drop_left]

lemma trimPre_of_neg (p s : List Char) (h : p.isPrefixOf s = false) :
    trimPre s p = s := by
  simp [trimPre, h]

/-! ### Quote-trimming lemmas -/

lemma trimTrailQ_name_append (u : List Char) :
    trimTrailQ ("name=".data ++ u) = "name=".data ++ trimTrailQ u := by
  unfold trimTrailQ
  rw [List.reverse_append, List.dropWhile_append]
  split
  · next hemp =>
    simp only [List.isEmpty_iff] at hemp
    rw [hemp]
    simp [isQuote]
  · simp

lemma trimTrailQ_all_quotes (q : List Char) (hq : ∀ c ∈ q, isQuote c = true) :
    trimTrailQ q = [] := by
  unfold trimTrailQ
  have h : q.reverse.dropWhile isQuote = [] := by
    rw [List.dropWhile_eq_nil_iff]
    intro a ha
    exact hq a (List.mem_reverse.mp ha)
  rw [h]
  rfl

lemma trimTrailQ_quotes_append (q u0 : List Char) (a : Char) (t : List Char)
    (h0 : u0 = a :: t) (ha : isQuote a = false) :
    trimTrailQ (q ++ u0) = q ++ trimTrailQ u0 := by
  unfold trimTrailQ
  rw [List.reverse_append, List.dropWhile_append]
  split
  · next hemp =>
    exfalso
    simp only [List.isEmpty_iff, List.dropWhile_eq_nil_iff] at hemp
    have := hemp a (by simp [h0])
    rw [ha] at this
    exact Bool.false_ne_true this
  · simp

lemma dropWhile_head_false (p : Char → Bool) (l : List Char) (a : Char)
    (t : List Char) (h : l.dropWhile p = a :: t) : p a = false := by
  induction l with
  | nil => simp [List.dropWhile] at h
  | cons c rest ih =>
    rw [List.dropWhile_cons] at h
    split at h
    · exact ih h
    · next hc =>
      cases h
      simpa using hc

/-! ### Substring-skip lemmas for the classification tokens -/

lemma tok_skip_name (tok : List Char) (htok : tok ∈ classTokens) (rest : List Char) :
    (tok <:+: "name=".data ++ rest) ↔ tok <:+: rest := by
  simp only [classTokens, List.mem_cons, List.not_mem_nil, or_false] at htok
  have hn : "name=".data ++ rest = 'n' :: 'a' :: 'm' :: 'e' :: '=' :: rest := rfl
  rcases htok with h | h | h | h | h | h <;> subst h <;> rw [hn] <;>
    simp [List.infix_cons_iff, List.cons_prefix_cons]

lemma cons_skip_quotes (a : Char) (t : List Char) (ha : a ≠ '\x22')
    (q rest : List Char) (hq : ∀ c ∈ q, isQuote c = true) :
    ((a :: t) <:+: q ++ rest) ↔ (a :: t) <:+: rest := by
  induction q with
  | nil => simp
  | cons c q' ih =>
    have hc : c = '\x22' := by
      have := hq c (by simp)
      simpa [isQuote] using this
    subst hc
    rw [List.cons_append, List.infix_cons_iff]
    rw [ih (fun c hcm => hq c (List.mem_cons_of_mem _ hcm))]
    simp [List.cons_prefix_cons, ha]

lemma tok_skip_quotes (tok : List Char) (htok : tok ∈ classTokens)
    (q rest : List Char) (hq : ∀ c ∈ q, isQuote c = true) :
    (tok <:+: q ++ rest) ↔ tok <:+: rest := by
  simp only [classTokens, List.mem_cons, List.not_mem_nil, or_false] at htok
  rcases htok with h | h | h | h | h | h <;> subst h
  · exact cons_skip_quotes 'd' ['e', 'b', 'i', 'a', 'n'] (by decide) q rest hq
  · exact cons_skip_quotes 'a' ['l', 'p', 'i', 'n', 'e'] (by decide) q rest hq
  · exact cons_skip_quotes 'c' ['e', 'n', 't', 'o', 's'] (by decide) q rest hq
  · exact cons_skip_quotes 'r' ['h', 'e', 'l'] (by decide) q rest hq
  · exact cons_skip_quotes 'u' ['b', 'i'] (by decide) q rest hq
  · exact cons_skip_quotes 'w' ['o', 'l', 'f', 'i'] (by decide) q rest hq

lemma bool_eq_of_iff {a b : Bool} (h : a = true ↔ b = true) : a = b := by
  cases a <;> cases b <;> simp_all

lemma classify_congr (v1 v2 : List Char)
    (h : ∀ tok ∈ classTokens, containsSub tok v1 = containsSub tok v2) :
    classifyValue v1 = classifyValue v2 := by
  unfold classifyValue
  rw [h "debian".data (by decide), h "alpine".data (by decide),
    h "centos".data (by decide), h "rhel".data (by decide),
    h "ubi".data (by decide), h "wolfi".data (by decide)]

lemma classify_name_skip (u : List Char) :
    classifyValue (trimQuotes ("name=".data ++ u)) = classifyValue (trimQuotes u) := by
  have hlead : trimLeadQ ("name=".data ++ u) = "name=".data ++ u := by
    show List.dropWhile isQuote ('n' :: ("ame=".data ++ u)) = _
    rw [List.dropWhile_cons_of_neg (by decide)]
    rfl
  have h1 : trimQuotes ("name=".data ++ u) = "name=".data ++ trimTrailQ u := by
    unfold trimQuotes
    rw [hlead, trimTrailQ_name_append]
  have hq : ∀ c ∈ u.takeWhile isQuote, isQuote c = true :=
    fun c hc => List.mem_takeWhile_imp hc
  have hu : u = u.takeWhile isQuote ++ u.dropWhile isQuote :=
    (List.takeWhile_append_dropWhile isQuote u).symm
  have h2 : trimQuotes u = trimTrailQ (u.dropWhile isQuote) := rfl
  cases h0 : u.dropWhile isQuote with
  | nil =>
    have huq : u = u.takeWhile isQuote := by
      conv_lhs => rw [hu]
      rw [h0, List.append_nil]
    have htu : trimTrailQ u = [] := by
      rw [huq]
      exact trimTrailQ_all_quotes _ hq
    rw [h1, h2, htu, h0]
    decide
  | cons a t =>
    have ha : isQuote a = false := dropWhile_head_false isQuote u a t h0
    have h3 : trimTrailQ u = u.takeWhile isQuote ++ trimTrailQ (u.dropWhile isQuote) := by
      conv_lhs => rw [hu]
      exact trimTrailQ_quotes_append _ _ a t h0 ha
    rw [h1, h2, h3]
    apply classify_congr
    intro tok htok
    apply bool_eq_of_iff
    rw [containsSub_iff, containsSub_iff]
    rw [tok_skip_name tok htok, tok_skip_quotes tok htok _ _ hq]

/-! ### The code classifier agrees with the spec-modelled classifier -/

lemma specIdentKey_eq_idLine (l : List Char) : specIdentKey l = idLine l := by
  unfold specIdentKey idLine
  cases hsp : splitAtEq (lowerStr l) with
  | none =>
    symm
    rw [Bool.or_eq_false_iff]
    constructor
    · rw [Bool.eq_false_iff]
      intro hpre
      obtain ⟨t, ht⟩ := List.isPrefixOf_iff_prefix.mp hpre
      have : splitAtEq (lowerStr l) = some ("id".data, t) := by
        rw [← ht]
        exact splitAtEq_append "id".data t (by decide)
      rw [hsp] at this
      exact Option.noConfusion this
    · rw [Bool.eq_false_iff]
      intro hpre
      obtain ⟨t, ht⟩ := List.isPrefixOf_iff_prefix.mp hpre
      have : splitAtEq (lowerStr l) = some ("name".data, t) := by
        rw [← ht]
        exact splitAtEq_append "name".data t (by decide)
      rw [hsp] at this
      exact Option.noConfusion this
  | some kv =>
    obtain ⟨hs, hk⟩ := splitAtEq_some _ kv.1 kv.2 hsp
    by_cases h1 : kv.1 = "id".data
    · have hpre : "id=".data.isPrefixOf (lowerStr l) = true := by
        rw [List.isPrefixOf_iff_prefix]
        exact ⟨kv.2, by rw [hs, h1]; rfl⟩
      simp [h1, hpre]
    · by_cases h2 : kv.1 = "name".data
      · have hpre : "name=".data.isPrefixOf (lowerStr l) = true := by
          rw [List.isPrefixOf_iff_prefix]
          exact ⟨kv.2, by rw [hs, h2]; rfl⟩
        simp [h1, h2, hpre]
      · have hp1 : "id=".data.isPrefixOf (lowerStr l) = false := by
          rw [Bool.eq_false_iff]
          intro hpre
          obtain ⟨t, ht⟩ := List.isPrefixOf_iff_prefix.mp hpre
          have heq : splitAtEq (lowerStr l) = some ("id".data, t) := by
            rw [← ht]
            exact splitAtEq_append "id".data t (by decide)
          rw [hsp] at heq
          exact h1 (congrArg (fun o => (Option.getD o ([], [])).1) heq)
        have hp2 : "name=".data.isPrefixOf (lowerStr l) = false := by
          rw [Bool.eq_false_iff]
          intro hpre
          obtain ⟨t, ht⟩ := List.isPrefixOf_iff_prefix.mp hpre
          have heq : splitAtEq (lowerStr l) = some ("name".data, t) := by
            rw [← ht]
            exact splitAtEq_append "name".data t (by decide)
          rw [hsp] at heq
          exact h2 (congrArg (fun o => (Option.getD o ([], [])).1) heq)
        simp [h1, h2, hp1, hp2]

lemma lineTag_eq_specLineTag (l : List Char) (h : idLine l = true) :
    lineTag l = specLineTag l := by
  have hcode : lineTag l =
      classifyValue (trimQuotes (trimPre (trimPre (lowerStr l) "id=".data)
        "name=".data)) := rfl
  rcases Bool.or_eq_true_iff.mp h with hid | hname
  · obtain ⟨t, ht⟩ := List.isPrefixOf_iff_prefix.mp hid
    have hsp : splitAtEq (lowerStr l) = some ("id".data, t) := by
      rw [← ht]
      exact splitAtEq_append "id".data t (by decide)
    have hspec : specLineTag l = classifyValue (trimQuotes t) := by
      unfold specLineTag
      rw [hsp]
    rw [hcode, hspec, ← ht, trimPre_append]
    cases hn : "name=".data.isPrefixOf t with
    | false => rw [trimPre_of_neg _ _ hn]
    | true =>
      obtain ⟨u, hu⟩ := List.isPrefixOf_iff_prefix.mp hn
      rw [← hu, trimPre_append]
      exact (classify_name_skip u).symm
  · obtain ⟨t, ht⟩ := List.isPrefixOf_iff_prefix.mp hname
    have hsp : splitAtEq (lowerStr l) = some ("name".data, t) := by
      rw [← ht]
      exact splitAtEq_append "name".data t (by decide)
    have hspec : specLineTag l = classifyValue (trimQuotes t) := by
      unfold specLineTag
      rw [hsp]
    have hid2 : "id=".data.isPrefixOf ("name=".data ++ t) = false := rfl
    rw [hcode, hspec, ← ht, trimPre_of_neg _ _ hid2, trimPre_append]

lemma parseLines_eq_find (ls : List (List Char)) :
    parseLines ls = match ls.find? idLine with
      | some l => lineTag l
      | none => "Unknown" := by
  induction ls with
  | nil => rfl
  | cons line rest ih =>
    cases h : idLine line with
    | true => simp [parseLines, h, List.find?_cons_of_pos _ h]
    | false =>
      have hne : ¬ (idLine line = true) := by simp [h]
      simp [parseLines, h, List.find?_cons_of_neg rest hne, ih]

lemma parseLinesV0_eq_find (ls : List (List Char)) :
    parseLinesV0 ls = match ls.find? idLineV0 with
      | some l => lineTagV0 l
      | none => "unknown" := by
  induction ls with
  | nil => rfl
  | cons line rest ih =>
    cases h : idLineV0 line with
    | true => simp [parseLinesV0, h, List.find?_cons_of_pos _ h]
    | false =>
      have hne : ¬ (idLineV0 line = true) := by simp [h]
      simp [parseLinesV0, h, List.find?_cons_of_neg rest hne, ih]

/-! ### Case-insensitivity lemmas -/

lemma idLine_congr (a b : List Char) (h : lowerStr a = lowerStr b) :
    idLine a = idLine b := by
  unfold idLine
  rw [h]

lemma lineTag_congr (a b : List Char) (h : lowerStr a = lowerStr b) :
    lineTag a = lineTag b := by
  unfold lineTag
  rw [h]

lemma parseLines_congr : ∀ ls1 ls2 : List (List Char),
    ls1.map lowerStr = ls2.map lowerStr → parseLines ls1 = parseLines ls2 := by
  intro ls1
  induction ls1 with
  | nil =>
    intro ls2 h
    cases ls2 with
    | nil => rfl
    | cons b t2 => simp at h
  | cons a t ih =>
    intro ls2 h
    cases ls2 with
    | nil => simp at h
    | cons b t2 =>
      simp only [List.map_cons, List.cons.injEq] at h
      obtain ⟨h1, h2⟩ := h
      show (if idLine a then lineTag a else parseLines t) =
        (if idLine b then lineTag b else parseLines t2)
      rw [idLine_congr a b h1, lineTag_congr a b h1, ih t2 h2]

lemma parse_content_congr (c1 c2 : List Char) (h : lowerStr c1 = lowerStr c2) :
    parseLines (splitLines c1) = parseLines (splitLines c2) := by
  apply parseLines_congr
  rw [← splitLines_lower, ← splitLines_lower, h]

lemma hasFipsMarker_congr (a b : List Char) (h : lowerStr a = lowerStr b) :
    hasFipsMarker a = hasFipsMarker b := by
  unfold hasFipsMarker
  rw [h]

lemma isFipsFromImageName_congr (a b : List Char) (h : lowerStr a = lowerStr b) :
    isFipsFromImageName a = isFipsFromImageName b := by
  unfold isFipsFromImageName
  rw [h]

lemma isFipsCompliant_congr (os1 os2 img1 img2 : List Char)
    (hos : lowerStr os1 = lowerStr os2) (himg : lowerStr img1 = lowerStr img2) :
    isFipsCompliant os1 img1 = isFipsCompliant os2 img2 := by
  unfold isFipsCompliant
  rw [hasFipsMarker_congr os1 os2 hos, isFipsFromImageName_congr img1 img2 himg]

/-! ### Aggregation lemmas -/

lemma bump_sum {α : Type} [DecidableEq α] (m : List (α × Nat)) (k : α) :
    sumVals (bump m k) = sumVals m + 1 := by
  induction m with
  | nil => simp [bump, sumVals]
  | cons kv rest ih =>
    obtain ⟨k', v⟩ := kv
    by_cases h : k' = k
    · simp [bump, h, sumVals]
      omega
    · simp only [bump, if_neg h, sumVals, List.map_cons, List.sum_cons] at ih ⊢
      omega

lemma bumpFold_sum {α β : Type} [DecidableEq α] (f : β → α) :
    ∀ (l : List β) (acc : List (α × Nat)),
      sumVals (l.foldl (fun m x => bump m (f x)) acc) = sumVals acc + l.length := by
  intro l
  induction l with
  | nil => intro acc; simp
  | cons x t ih =>
    intro acc
    simp only [List.foldl_cons, List.length_cons]
    rw [ih, bump_sum]
    omega

lemma aggContainer_nsMap (i : Pod → Container → ExecOutcome) (p : Pod)
    (acc : Snapshot) (c : Container) : (aggContainer i p acc c).nsMap = acc.nsMap := by
  cases hd : (getContainerDetails (i p c) c.image).2 <;> simp [aggContainer, hd]

lemma aggContainer_imageMap (i : Pod → Container → ExecOutcome) (p : Pod)
    (acc : Snapshot) (c : Container) :
    (aggContainer i p acc c).imageMap = bump acc.imageMap c.image := by
  cases hd : (getContainerDetails (i p c) c.image).2 <;> simp [aggContainer, hd]

lemma aggContainer_baseTypeMap (i : Pod → Container → ExecOutcome) (p : Pod)
    (acc : Snapshot) (c : Container) :
    (aggContainer i p acc c).baseTypeMap =
      bump acc.baseTypeMap (getContainerDetails (i p c) c.image).1 := by
  cases hd : (getContainerDetails (i p c) c.image).2 <;> simp [aggContainer, hd]

lemma foldAgg_nsMap (i : Pod → Container → ExecOutcome) (p : Pod) :
    ∀ (cs : List Container) (acc : Snapshot),
      (cs.foldl (aggContainer i p) acc).nsMap = acc.nsMap := by
  intro cs
  induction cs with
  | nil => intro acc; rfl
  | cons c t ih =>
    intro acc
    simp only [List.foldl_cons]
    rw [ih, aggContainer_nsMap]

lemma foldAgg_imageMap (i : Pod → Container → ExecOutcome) (p : Pod) :
    ∀ (cs : List Container) (acc : Snapshot),
      (cs.foldl (aggContainer i p) acc).imageMap =
        cs.foldl (fun m c => bump m c.image) acc.imageMap := by
  intro cs
  induction cs with
  | nil => intro acc; rfl
  | cons c t ih =>
    intro acc
    simp only [List.foldl_cons]
    rw [ih, aggContainer_imageMap]

lemma foldAgg_baseTypeMap (i : Pod → Container → ExecOutcome) (p : Pod) :
    ∀ (cs : List Container) (acc : Snapshot),
      (cs.foldl (aggContainer i p) acc).baseTypeMap =
        cs.foldl (fun m c => bump m (getContainerDetails (i p c) c.image).1)
          acc.baseTypeMap := by
  intro cs
  induction cs with
  | nil => intro acc; rfl
  | cons c t ih =>
    intro acc
    simp only [List.foldl_cons]
    rw [ih, aggContainer_baseTypeMap]

lemma aggPod_nsMap (i : Pod → Container → ExecOutcome) (acc : Snapshot) (p : Pod) :
    (aggPod i acc p).nsMap = bump acc.nsMap p.ns := by
  unfold aggPod
  rw [foldAgg_nsMap]

lemma aggPod_imageMap (i : Pod → Container → ExecOutcome) (acc : Snapshot) (p : Pod) :
    (aggPod i acc p).imageMap =
      p.containers.foldl (fun m c => bump m c.image) acc.imageMap := by
  unfold aggPod
  rw [foldAgg_imageMap]

lemma aggPod_baseTypeMap (i : Pod → Container → ExecOutcome) (acc : Snapshot) (p : Pod) :
    (aggPod i acc p).baseTypeMap =
      p.containers.foldl (fun m c => bump m (getContainerDetails (i p c) c.image).1)
        acc.baseTypeMap := by
  unfold aggPod
  rw [foldAgg_baseTypeMap]

lemma aggPods_nsMap (i : Pod → Container → ExecOutcome) :
    ∀ (pods : List Pod) (acc : Snapshot),
      (pods.foldl (aggPod i) acc).nsMap =
        pods.foldl (fun m p => bump m p.ns) acc.nsMap := by
  intro pods
  induction pods with
  | nil => intro acc; rfl
  | cons p t ih =>
    intro acc
    simp only [List.foldl_cons]
    rw [ih, aggPod_nsMap]

lemma aggPods_imageMap (i : Pod → Container → ExecOutcome) :
    ∀ (pods : List Pod) (acc : Snapshot),
      (pods.foldl (aggPod i) acc).imageMap =
        pods.foldl (fun m p => p.containers.foldl (fun m c => bump m c.image) m)
          acc.imageMap := by
  intro pods
  induction pods with
  | nil => intro acc; rfl
  | cons p t ih =>
    intro acc
    simp only [List.foldl_cons]
    rw [ih, aggPod_imageMap]

lemma aggPods_baseTypeMap (i : Pod → Container → ExecOutcome) :
    ∀ (pods : List Pod) (acc : Snapshot),
      (pods.foldl (aggPod i) acc).baseTypeMap =
        pods.foldl
          (fun m p => p.containers.foldl
            (fun m c => bump m (getContainerDetails (i p c) c.image).1) m)
          acc.baseTypeMap := by
  intro pods
  induction pods with
  | nil => intro acc; rfl
  | cons p t ih =>
    intro acc
    simp only [List.foldl_cons]
    rw [ih, aggPod_baseTypeMap]

lemma nestedBumpFold_sum {α : Type} [DecidableEq α] (g : Pod → Container → α) :
    ∀ (pods : List Pod) (acc : List (α × Nat)),
      sumVals (pods.foldl
        (fun m p => p.containers.foldl (fun m c => bump m (g p c)) m) acc) =
      sumVals acc + totalContainers pods := by
  intro pods
  induction pods with
  | nil => intro acc; simp [totalContainers]
  | cons p t ih =>
    intro acc
    simp only [List.foldl_cons]
    rw [ih, bumpFold_sum (fun c => g p c)]
    simp [totalContainers]
    omega

/-! ### Key-uniqueness and publication lemmas -/

lemma setLabel_not_mem {α : Type} [DecidableEq α] (acc : List (α × Nat))
    (k : α) (v : Nat) (h : k ∉ keysOf acc) : setLabel acc k v = acc ++ [(k, v)] := by
  induction acc with
  | nil => rfl
  | cons kv rest ih =>
    obtain ⟨k', v'⟩ := kv
    have hk : k' ≠ k := by
      intro he
      exact h (by simp [keysOf, he])
    simp only [setLabel, if_neg hk, List.cons_append, List.cons.injEq, true_and]
    exact ih (fun hm => h (by simp [keysOf] at hm ⊢; exact Or.inr hm))

lemma publishFold {α : Type} [DecidableEq α] :
    ∀ (m acc : List (α × Nat)), (keysOf m).Nodup →
      (∀ k ∈ keysOf m, k ∉ keysOf acc) →
      m.foldl (fun g kv => setLabel g kv.1 kv.2) acc = acc ++ m := by
  intro m
  induction m with
  | nil => intro acc _ _; simp
  | cons kv rest ih =>
    intro acc hnd hdis
    obtain ⟨k, v⟩ := kv
    have hnd2 : k ∉ keysOf rest ∧ (keysOf rest).Nodup := by
      simpa only [keysOf, List.map_cons, List.nodup_cons] using hnd
    simp only [List.foldl_cons]
    rw [setLabel_not_mem acc k v (hdis k (by simp [keysOf]))]
    rw [ih (acc ++ [(k, v)]) hnd2.2 ?_]
    · simp
    · intro k' hk'
      have hne : k' ≠ k := fun he => hnd2.1 (he ▸ hk')
      have hout : k' ∉ keysOf acc :=
        hdis k' (by simp only [keysOf, List.map_cons, List.mem_cons]; exact Or.inr hk')
      intro hmem
      simp only [keysOf, List.map_append, List.mem_append, List.map_cons, List.map_nil,
        List.mem_cons, List.not_mem_nil, or_false] at hmem
      rcases hmem with h1 | h2
      · exact hout h1
      · exact hne h2

lemma publishVec_self {α : Type} [DecidableEq α] (m : List (α × Nat))
    (h : (keysOf m).Nodup) : publishVec m = m := by
  unfold publishVec
  rw [publishFold m [] h (by simp [keysOf])]
  simp

lemma bump_keys {α : Type} [DecidableEq α] (m : List (α × Nat)) (k : α) :
    keysOf (bump m k) =
      if k ∈ keysOf m then keysOf m else keysOf m ++ [k] := by
  induction m with
  | nil => simp [bump, keysOf]
  | cons kv rest ih =>
    obtain ⟨k', v⟩ := kv
    by_cases h : k' = k
    · simp [bump, h, keysOf]
    · have hbk : bump ((k', v) :: rest) k = (k', v) :: bump rest k := by
        simp [bump, h]
      rw [hbk]
      by_cases hm : k ∈ keysOf rest
      · have hm2 : k ∈ keysOf ((k', v) :: rest) := by
          simp [keysOf] at hm ⊢
          exact Or.inr hm
        rw [if_pos hm2]
        show k' :: keysOf (bump rest k) = k' :: keysOf rest
        rw [ih, if_pos hm]
      · have hm2 : k ∉ keysOf ((k', v) :: rest) := by
          simp [keysOf] at hm ⊢
          exact ⟨fun he => h he.symm, hm⟩
        rw [if_neg hm2]
        show k' :: keysOf (bump rest k) = (k' :: keysOf rest) ++ [k]
        rw [ih, if_neg hm]
        rfl

lemma bump_nodup {α : Type} [DecidableEq α] (m : List (α × Nat)) (k : α)
    (h : (keysOf m).Nodup) : (keysOf (bump m k)).Nodup := by
  rw [bump_keys]
  split
  · exact h
  · next hnm =>
    rw [List.nodup_append]
    exact ⟨h, List.nodup_singleton k, by
      intro a ha hb
      simp at hb
      exact hnm (hb ▸ ha)⟩

lemma bumpFold_nodup {α β : Type} [DecidableEq α] (f : β → α) :
    ∀ (l : List β) (acc : List (α × Nat)), (keysOf acc).Nodup →
      (keysOf (l.foldl (fun m x => bump m (f x)) acc)).Nodup := by
  intro l
  induction l with
  | nil => intro acc h; exact h
  | cons x t ih =>
    intro acc h
    simp only [List.foldl_cons]
    exact ih _ (bump_nodup _ _ h)

lemma nestedBumpFold_nodup {α : Type} [DecidableEq α] (g : Pod → Container → α) :
    ∀ (pods : List Pod) (acc : List (α × Nat)), (keysOf acc).Nodup →
      (keysOf (pods.foldl
        (fun m p => p.containers.foldl (fun m c => bump m (g p c)) m) acc)).Nodup := by
  intro pods
  induction pods with
  | nil => intro acc h; exact h
  | cons p t ih =>
    intro acc h
    simp only [List.foldl_cons]
    exact ih _ (bumpFold_nodup (fun c => g p c) p.containers acc h)

lemma lookupVal_not_mem {α : Type} [DecidableEq α] (m : List (α × Nat)) (k : α)
    (h : k ∉ keysOf m) : lookupVal m k = none := by
  induction m with
  | nil => rfl
  | cons kv rest ih =>
    obtain ⟨k', v⟩ := kv
    have hk : k' ≠ k := by
      intro he
      exact h (by simp [keysOf, he])
    simp only [lookupVal, if_neg hk]
    exact ih (fun hm => h (by simp [keysOf] at hm ⊢; exact Or.inr hm))

lemma aggregate_nsMap_nodup (i : Pod → Container → ExecOutcome) (pods : List Pod) :
    (keysOf (aggregate i pods).nsMap).Nodup := by
  unfold aggregate
  rw [aggPods_nsMap]
  exact bumpFold_nodup (fun p => p.ns) pods [] (by simp [keysOf, emptySnapshot])

lemma aggregate_imageMap_nodup (i : Pod → Container → ExecOutcome) (pods : List Pod) :
    (keysOf (aggregate i pods).imageMap).Nodup := by
  unfold aggregate
  rw [aggPods_imageMap]
  exact nestedBumpFold_nodup (fun p c => c.image) pods [] (by simp [keysOf, emptySnapshot])

lemma aggregate_baseTypeMap_nodup (i : Pod → Container → ExecOutcome) (pods : List Pod) :
    (keysOf (aggregate i pods).baseTypeMap).Nodup := by
  unfold aggregate
  rw [aggPods_baseTypeMap]
  exact nestedBumpFold_nodup (fun p c => (getContainerDetails (i p c) c.image).1)
    pods [] (by simp [keysOf, emptySnapshot])

/-! ### Range lemmas for the classifiers -/

lemma lineTag_mem_range (l : List Char) :
    lineTag l ∈ (["Debian", "Alpine", "RHEL", "Chainguard", "Other", "Unknown"] :
      List String) := by
  simp only [lineTag, classifyValue]
  split_ifs <;> decide

lemma parseLines_mem_range : ∀ ls : List (List Char),
    parseLines ls ∈ (["Debian", "Alpine", "RHEL", "Chainguard", "Other", "Unknown"] :
      List String) := by
  intro ls
  induction ls with
  | nil => decide
  | cons l rest ih =>
    show (if idLine l then lineTag l else parseLines rest) ∈ _
    split
    · exact lineTag_mem_range l
    · exact ih

lemma lineTagV0_mem_range (l : List Char) :
    lineTagV0 l ∈ (["debian", "ubuntu", "alpine", "centos", "rhel", "fedora",
      "other", "unknown"] : List String) := by
  simp only [lineTagV0]
  split_ifs <;> decide

lemma parseLinesV0_mem_range : ∀ ls : List (List Char),
    parseLinesV0 ls ∈ (["debian", "ubuntu", "alpine", "centos", "rhel", "fedora",
      "other", "unknown"] : List String) := by
  intro ls
  induction ls with
  | nil => decide
  | cons l rest ih =>
    show (if idLineV0 l then lineTagV0 l else parseLinesV0 rest) ∈ _
    split
    · exact lineTagV0_mem_range l
    · exact ih

/-! ### Claim theorems -/

/-- Claim C1, counterexample.  The claim states that for every failed
inspection the compliant flag equals the image-name heuristic.  This is
false for the executor-creation failure path: with image reference
"registry/app-fips:2.0" the heuristic yields true, but
`getContainerDetails` returns compliant = false on that path. -/
theorem c1_claim_counterexample :
    getContainerDetails ExecOutcome.executorError "registry/app-fips:2.0".data
      = ("Unknown", false)
    ∧ isFipsFromImageName "registry/app-fips:2.0".data = true
    ∧ (getContainerDetails ExecOutcome.executorError "registry/app-fips:2.0".data).2
      ≠ isFipsFromImageName "registry/app-fips:2.0".data := by
  refine ⟨rfl, by decide, ?_⟩
  intro h
  rw [show (getContainerDetails ExecOutcome.executorError
    "registry/app-fips:2.0".data).2 = false from rfl] at h
  exact Bool.false_ne_true (h.trans (by decide))

/-- Claim C1, amended.  For a stream failure the classification is
base-type "Unknown" with the compliant flag equal to the image-name
heuristic (so "registry/app-fips:2.0" gives true and
"myregistry/app:1.0" gives false); for an executor-creation failure the
classification is "Unknown" with compliant = false regardless of the
image reference. -/
theorem c1_amended_failed_inspection (image : List Char) :
    getContainerDetails ExecOutcome.streamError image
      = ("Unknown", isFipsFromImageName image)
    ∧ getContainerDetails ExecOutcome.executorError image = ("Unknown", false)
    ∧ getContainerDetails ExecOutcome.streamError "registry/app-fips:2.0".data
      = ("Unknown", true)
    ∧ getContainerDetails ExecOutcome.streamError "myregistry/app:1.0".data
      = ("Unknown", false) :=
  ⟨rfl, rfl, by decide, by decide⟩

/-- Claim C2: when the workload enumeration call fails, `updateMetrics`
returns before any reset or set, so the published gauge state after the
cycle is exactly the state before the cycle. -/
theorem c2_enumeration_error_preserves_gauges
    (inspect : Pod → Container → ExecOutcome) (g : GaugeState) :
    updateMetrics inspect none g = g := rfl

/-- Claim C3: for every metadata content string and image reference, the
result of `isFipsCompliant` equals the disjunction of the explicit
content marker test and the image-name heuristic; hence a content marker
alone forces true, and an image match can only add compliance. -/
theorem c3_compliance_is_disjunction (osRelease image : List Char) :
    isFipsCompliant osRelease image
      = (hasFipsMarker osRelease || isFipsFromImageName image) := by
  unfold isFipsCompliant
  cases h : hasFipsMarker osRelease <;> simp [h]

/-- Claim C4, counterexample.  The claim also covers the part_000
variant's classifier, where it fails twice: on content
NAME="Debian GNU/Linux" the variant returns its no-identity-line result
"unknown" although the line's key before the equals sign
case-insensitively matches the identity field "name" (`specIdentKey` is
true), because that variant tests only id-keyed lines; and on content
ID="debian 12" it returns its non-match result "other" although the
stripped value contains the substring "debian", because that variant
matches values exactly rather than by substring rules. -/
theorem c4_claim_counterexample :
    parseOsReleaseV0 "NAME=\"Debian GNU/Linux\"" = "unknown"
    ∧ specIdentKey "NAME=\"Debian GNU/Linux\"".data = true
    ∧ parseOsReleaseV0 "ID=\"debian 12\"" = "other"
    ∧ containsSub "debian".data
        (trimQuotes (trimPre (lowerStr "ID=\"debian 12\"".data) "id=".data)) = true
    ∧ parseOsRelease "NAME=\"Debian GNU/Linux\"" = "Debian"
    ∧ parseOsRelease "ID=\"debian 12\"" = "Debian" := by decide

/-- Claim C4, amended.  The discovery.go classifier `parseOsRelease`
(but not the part_000 variant) agrees with the spec-modelled classifier
`parseOsReleaseSpec`, which scans lines in order, selects the first line
whose key before the first equals sign case-insensitively matches "id" or
"name", strips surrounding double quotes from its value, and maps the
value through the ordered first-match-wins substring rules, returning
"Unknown" when no identity line exists. -/
theorem c4_parse_matches_spec (content : String) :
    parseOsRelease content = parseOsReleaseSpec content := by
  unfold parseOsRelease parseOsReleaseSpec
  rw [parseLines_eq_find]
  rw [show specIdentKey = idLine from funext specIdentKey_eq_idLine]
  cases h : (splitLines content.data).find? idLine with
  | none => rfl
  | some l => exact lineTag_eq_specLineTag l (List.find?_some h)

/-- Claim C5: in every cycle that reaches aggregation, the sum of the
namespace counts equals the number of workloads (the namespace count is
bumped exactly once per workload, not per container), and the sums of the
image-reference counts and of the base-type counts both equal the total
number of containers observed. -/
theorem c5_aggregation_invariant (inspect : Pod → Container → ExecOutcome)
    (pods : List Pod) :
    sumVals (aggregate inspect pods).nsMap = pods.length
    ∧ (aggregate inspect pods).nsMap = pods.foldl (fun m p => bump m p.ns) []
    ∧ sumVals (aggregate inspect pods).imageMap = totalContainers pods
    ∧ sumVals (aggregate inspect pods).baseTypeMap = totalContainers pods := by
  refine ⟨?_, ?_, ?_, ?_⟩
  · unfold aggregate
    rw [aggPods_nsMap]
    exact (bumpFold_sum (fun p : Pod => p.ns) pods emptySnapshot.nsMap).trans
      (by simp [sumVals, emptySnapshot])
  · unfold aggregate
    rw [aggPods_nsMap]
    rfl
  · unfold aggregate
    rw [aggPods_imageMap]
    exact (nestedBumpFold_sum (fun p c => c.image) pods emptySnapshot.imageMap).trans
      (by simp [sumVals, emptySnapshot])
  · unfold aggregate
    rw [aggPods_baseTypeMap]
    exact (nestedBumpFold_sum
      (fun p c => (getContainerDetails (inspect p c) c.image).1) pods
      emptySnapshot.baseTypeMap).trans (by simp [sumVals, emptySnapshot])

/-- Claim C6: after two consecutive successful cycles the published state
is exactly the second cycle's snapshot (reset-then-set), and any label
combination absent from the second cycle's snapshot is not exported
afterwards, whatever the first cycle published. -/
theorem c6_reset_then_set (i1 i2 : Pod → Container → ExecOutcome)
    (pods1 pods2 : List Pod) (g : GaugeState) :
    updateMetrics i2 (some pods2) (updateMetrics i1 (some pods1) g)
      = publish (aggregate i2 pods2)
    ∧ (updateMetrics i2 (some pods2)
        (updateMetrics i1 (some pods1) g)).podsPerNamespace
      = (aggregate i2 pods2).nsMap
    ∧ (updateMetrics i2 (some pods2)
        (updateMetrics i1 (some pods1) g)).containerImageCount
      = (aggregate i2 pods2).imageMap
    ∧ (updateMetrics i2 (some pods2)
        (updateMetrics i1 (some pods1) g)).containerBaseImageType
      = (aggregate i2 pods2).baseTypeMap
    ∧ (∀ label : List Char, label ∉ keysOf (aggregate i2 pods2).nsMap →
        lookupVal (updateMetrics i2 (some pods2)
          (updateMetrics i1 (some pods1) g)).podsPerNamespace label = none)
    ∧ (∀ label : List Char, label ∉ keysOf (aggregate i2 pods2).imageMap →
        lookupVal (updateMetrics i2 (some pods2)
          (updateMetrics i1 (some pods1) g)).containerImageCount label = none)
    ∧ (∀ tag : String, tag ∉ keysOf (aggregate i2 pods2).baseTypeMap →
        lookupVal (updateMetrics i2 (some pods2)
          (updateMetrics i1 (some pods1) g)).containerBaseImageType tag = none) := by
  have hns : (updateMetrics i2 (some pods2)
      (updateMetrics i1 (some pods1) g)).podsPerNamespace
      = (aggregate i2 pods2).nsMap :=
    publishVec_self _ (aggregate_nsMap_nodup i2 pods2)
  have himg : (updateMetrics i2 (some pods2)
      (updateMetrics i1 (some pods1) g)).containerImageCount
      = (aggregate i2 pods2).imageMap :=
    publishVec_self _ (aggregate_imageMap_nodup i2 pods2)
  have hbt : (updateMetrics i2 (some pods2)
      (updateMetrics i1 (some pods1) g)).containerBaseImageType
      = (aggregate i2 pods2).baseTypeMap :=
    publishVec_self _ (aggregate_baseTypeMap_nodup i2 pods2)
  refine ⟨rfl, hns, himg, hbt, ?_, ?_, ?_⟩
  · intro label h
    rw [hns]
    exact lookupVal_not_mem _ _ h
  · intro label h
    rw [himg]
    exact lookupVal_not_mem _ _ h
  · intro tag h
    rw [hbt]
    exact lookupVal_not_mem _ _ h

/-- Witness for claim C6: a cycle that classified a container as
"Alpine" followed by a successful cycle with no pods leaves no "Alpine"
label combination in the base-type gauge. -/
theorem c6_reset_then_set_witness :
    lookupVal (updateMetrics (fun _ _ => ExecOutcome.streamError) (some [])
      (updateMetrics (fun _ _ => ExecOutcome.output "ID=alpine".data)
        (some [⟨"ns1".data, "p1".data, [⟨"c1".data, "img1".data⟩]⟩])
        ⟨[], [], [], 0⟩)).containerBaseImageType "Alpine" = none :=
  (c6_reset_then_set (fun _ _ => ExecOutcome.output "ID=alpine".data)
    (fun _ _ => ExecOutcome.streamError)
    [⟨"ns1".data, "p1".data, [⟨"c1".data, "img1".data⟩]⟩] []
    ⟨[], [], [], 0⟩).2.2.2.2.2.2 "Alpine" (by decide)

/-- Claim C7: the classifier is deterministic and case-insensitive: any
two content strings that agree after lower-casing classify identically,
and compliance is unchanged under case changes of content and image
reference. -/
theorem c7_classifier_case_insensitive (c1 c2 : String)
    (os1 os2 img1 img2 : List Char)
    (hc : lowerStr c1.data = lowerStr c2.data)
    (hos : lowerStr os1 = lowerStr os2)
    (himg : lowerStr img1 = lowerStr img2) :
    parseOsRelease c1 = parseOsRelease c2
    ∧ isFipsCompliant os1 img1 = isFipsCompliant os2 img2 :=
  ⟨parse_content_congr c1.data c2.data hc,
    isFipsCompliant_congr os1 os2 img1 img2 hos himg⟩

/-- Witness for claim C7 at concrete case-variant inputs. -/
theorem c7_classifier_case_insensitive_witness :
    parseOsRelease "ID=Ubuntu" = parseOsRelease "id=UBUNTU"
    ∧ isFipsCompliant "FIPS_MODE=YES".data "App:FIPS".data
      = isFipsCompliant "fips_mode=yes".data "app:fips".data := by
  constructor
  · exact (c7_classifier_case_insensitive "ID=Ubuntu" "id=UBUNTU" [] [] [] []
      (by decide) rfl rfl).1
  · exact (c7_classifier_case_insensitive "x" "x" "FIPS_MODE=YES".data
      "fips_mode=yes".data "App:FIPS".data "app:fips".data rfl
      (by decide) (by decide)).2

/-- Claim C8, counterexample.  On content ID="ubuntu" and NAME="Ubuntu"
the discovery.go classifier returns "Other"; the returned tag does not
mention ubuntu at all, so it is not an ubuntu-family tag as the claim
requires. -/
theorem c8_claim_counterexample :
    parseOsRelease "ID=\"ubuntu\"\nNAME=\"Ubuntu\"" = "Other"
    ∧ containsSub "ubuntu".data (lowerStr "Other".data) = false := by decide

/-- Claim C8, amended.  On that content the part_000 variant's classifier
returns the "ubuntu" tag, while discovery.go's classifier (whose rule
table has no ubuntu entry) returns "Other"; with image reference
"myregistry/app:1.0" compliance is false in either case. -/
theorem c8_amended_ubuntu_scenario :
    parseOsReleaseV0 "ID=\"ubuntu\"\nNAME=\"Ubuntu\"" = "ubuntu"
    ∧ parseOsRelease "ID=\"ubuntu\"\nNAME=\"Ubuntu\"" = "Other"
    ∧ isFipsCompliant "ID=\"ubuntu\"\nNAME=\"Ubuntu\"".data
        "myregistry/app:1.0".data = false := by decide

/-- Claim C9: with a fixed workload listing and fixed inspection
outcomes, running the cycle twice publishes the same state as running it
once, the published state is independent of the prior gauge state, and it
equals the published aggregate snapshot. -/
theorem c9_pipeline_deterministic (inspect : Pod → Container → ExecOutcome)
    (pods : List Pod) (g g' : GaugeState) :
    updateMetrics inspect (some pods) (updateMetrics inspect (some pods) g)
      = updateMetrics inspect (some pods) g
    ∧ updateMetrics inspect (some pods) g = updateMetrics inspect (some pods) g'
    ∧ updateMetrics inspect (some pods) g = publish (aggregate inspect pods) :=
  ⟨rfl, rfl, rfl⟩

/-- Claim C10, counterexample.  The part_000 variant returns "ubuntu" on
content ID=ubuntu, which is not among the lowercase analogues of the
six tags listed by the claim. -/
theorem c10_claim_counterexample :
    parseOsReleaseV0 "ID=ubuntu" = "ubuntu"
    ∧ "ubuntu" ∉ (["debian", "alpine", "rhel", "chainguard", "other", "unknown"] :
      List String) := by decide

/-- Claim C10, amended.  The discovery.go classifier is total with range
inside the six tags Debian, Alpine, RHEL, Chainguard, Other, Unknown; the
part_000 variant is total with range inside the eight tags debian,
ubuntu, alpine, centos, rhel, fedora, other, unknown; each result is
fully determined by the first line passing that variant's identity-prefix
test with all later lines ignored; and empty content yields the unknown
tag in both variants. -/
theorem c10_amended_classifier_range (content : String) :
    parseOsRelease content ∈
      (["Debian", "Alpine", "RHEL", "Chainguard", "Other", "Unknown"] : List String)
    ∧ parseOsReleaseV0 content ∈
      (["debian", "ubuntu", "alpine", "centos", "rhel", "fedora", "other",
        "unknown"] : List String)
    ∧ parseOsRelease content = (match (splitLines content.data).find? idLine with
        | some l => lineTag l
        | none => "Unknown")
    ∧ parseOsReleaseV0 content = (match (splitLines content.data).find? idLineV0 with
        | some l => lineTagV0 l
        | none => "unknown")
    ∧ parseOsRelease "" = "Unknown"
    ∧ parseOsReleaseV0 "" = "unknown" :=
  ⟨parseLines_mem_range _, parseLinesV0_mem_range _, parseLines_eq_find _,
    parseLinesV0_eq_find _, by decide, by decide⟩

end Discovery
